import Mathlib

/-!
Verification of the muselet commitlint plugin core
(`packages/commitlint-plugin/src/rules/context-by-type.ts`).

The core consists of two pure rule functions, `contextByType` and
`contextRecommended`, a configuration normalizer `normalize`, and a
section matcher `findMissing` that tests the commit body against the
JavaScript regular expression described by the pattern
`^###\s+<name>` with flags `m` (multiline) and `i` (case-insensitive).

The embedding below translates the TypeScript source directly:

* `Commit` mirrors the parsed-commit record; optional / nullable fields
  become `Option`s.  The JavaScript truthiness tests are translated
  explicitly: `parsed.merge` is truthy iff the field is `some true`;
  `parsed.revert != null` holds iff the field is `some _`; `!type` and
  `!body` hold for `none` and for the empty string.
* `RuleValue` (a TypeScript `Record<string, SectionConfig | string[]>`)
  becomes an association list over its keys; `type in value` becomes a
  successful lookup.
* The regular-expression test is modelled character by character for
  section names that denote themselves literally (the names the plugin
  and its shipped configurations use are alphanumeric words).  With the
  `m` flag, `^` matches at the start of the haystack and immediately
  after a line-terminator character; `\s` matches the JavaScript
  whitespace class, which includes the line terminators themselves;
  the `i` flag compares characters after `toUpperCase` canonicalization
  (here realised for the ASCII range by `Char.toUpper`).
-/

namespace Muselet

/-- Whitespace class `\s` of JavaScript regular expressions:
space, tab, line feed, vertical tab, form feed, carriage return,
and the Unicode space separators, line separators and BOM. -/
def jsWhitespace (c : Char) : Bool :=
  c = ' ' || c = '\t' || c = '\n' || c = '\x0b' || c = '\x0c' || c = '\x0d' ||
  c = '\u00A0' || c = '\u1680' || ('\u2000' ≤ c && c ≤ '\u200A') ||
  c = '\u2028' || c = '\u2029' || c = '\u202F' || c = '\u205F' ||
  c = '\u3000' || c = '\uFEFF'

/-- Line terminators of JavaScript: with the `m` flag, `^` matches
immediately after any of these characters. -/
def jsLineTerminator (c : Char) : Bool :=
  c = '\n' || c = '\x0d' || c = '\u2028' || c = '\u2029'

/-- Case-insensitive character comparison: the `i` flag canonicalizes
via `toUpperCase` (realised here for the ASCII range). -/
def charCI (a b : Char) : Bool :=
  a.toUpper = b.toUpper

/-- Does the text start with the pattern, comparing case-insensitively? -/
def startsWithCI : List Char → List Char → Bool
  | [], _ => true
  | _ :: _, [] => false
  | p :: ps, c :: cs => charCI p c && startsWithCI ps cs

/-- Match `\s*` followed by the (literal) name at the given position:
either the name matches here, or one more whitespace character is
consumed and we continue. -/
def wsStarName (name : List Char) : List Char → Bool
  | [] => startsWithCI name []
  | c :: rest => startsWithCI name (c :: rest) || (jsWhitespace c && wsStarName name rest)

/-- Match `###\s+<name>` at the given position: three hash characters,
at least one whitespace character, then the name (case-insensitively).
A fourth `#` fails because `#` is not whitespace, so exactly a
three-hash header matches. -/
def headerAt (name : List Char) : List Char → Bool
  | '#' :: '#' :: '#' :: c :: rest => jsWhitespace c && wsStarName name rest
  | _ => false

/-- Scan of the multiline regex `^###\s+<name>` over the haystack:
`atStart` records whether the current position is a line start
(position zero, or the previous character was a line terminator). -/
def scanHeader (name : List Char) (atStart : Bool) : List Char → Bool
  | [] => false
  | c :: rest =>
      (atStart && headerAt name (c :: rest)) || scanHeader name (jsLineTerminator c) rest

/-- The JavaScript test `new RegExp(("^###\s+").append name, "mi").test body`
for a section name that denotes itself literally in the pattern.  The
source splices the name into the pattern text, so a name containing
regular-expression metacharacters is interpreted as syntax there (a
`.` matches any character; an unterminated `(` makes construction
throw); this function is therefore a faithful model only for names
built from literal characters (see `nameSafe`), and theorems that
quantify over section names carry that restriction as a hypothesis. -/
def regexTestHeader (body : String) (name : String) : Bool :=
  scanHeader name.data true body.data

/-- Parsed conventional commit as consumed by the rules.  Only the four
fields the rules read are modelled; `revert` is only ever compared
against `null`, so its payload is irrelevant and elided. -/
structure Commit where
  type : Option String
  body : Option String
  merge : Option Bool
  revert : Option Unit
deriving Repr, DecidableEq

/-- Rule polarity (commitlint `when`). -/
inductive When
  | always
  | never
deriving Repr, DecidableEq

/-- Structured per-type expectations (`SectionConfig` in the source);
absent fields are `none` and are read as the empty list. -/
structure SectionConfig where
  required : Option (List String)
  recommended : Option (List String)
deriving Repr, DecidableEq

/-- Per-type configuration entry: either the legacy bare list of section
names, or a structured `SectionConfig`. -/
inductive SectionSpec
  | flat (sections : List String)
  | structured (cfg : SectionConfig)
deriving Repr, DecidableEq

/-- Rule configuration `RuleValue = Record<string, SectionConfig | string[]>`,
modelled as an association list over the record keys. -/
abbrev RuleValue := List (String × SectionSpec)

/-- Key lookup in a `RuleValue` over its OWN keys: `value[type]` is the
looked-up entry.  The JavaScript `in` operator used by the guard
`!(type in value)` additionally finds the property names every object
literal inherits from `Object.prototype` (see `objectPrototypeKeys`);
`contextByTypeP` and `contextRecommendedP` below make that
prototype-chain behavior explicit, while `contextByType` and
`contextRecommended` read `type in value` as own-key membership
`(lookupType value type).isSome`. -/
def lookupType (value : RuleValue) (t : String) : Option SectionSpec :=
  (List.find? (fun p => p.1 == t) value).map Prod.snd

/-- The built-in default configuration `DEFAULT_VALUE`. -/
def DEFAULT_VALUE : RuleValue :=
  [("fix", .structured ⟨some ["Why"], some ["Cause", "Approach"]⟩),
   ("feat", .structured ⟨some ["Why"], some ["Approach", "Alternatives"]⟩),
   ("refactor", .structured ⟨some ["Why", "Approach"], some ["Alternatives", "Invariants"]⟩),
   ("perf", .structured ⟨some ["Why", "Metrics"], some ["Approach", "Tradeoffs"]⟩)]

/-- Source: `Array.isArray(value) ? { required: value } : value`. -/
def normalize : SectionSpec → SectionConfig
  | .flat sections => ⟨some sections, none⟩
  | .structured cfg => cfg

/-- Source: `sections.filter((s) => !body || !new RegExp(...).test(body))`.
The JavaScript guard `!body` is true when `body` is null or the empty
string, in which case no regular expression is built and every section
is kept as missing.  Like `regexTestHeader`, this treats section names
as literal text and never fails; it is faithful to the source for
`nameSafe` names, and `findMissingE` below makes the
`RegExp`-constructor error path of non-literal names explicit. -/
def findMissing (body : Option String) (sections : List String) : List String :=
  sections.filter fun s =>
    match body with
    | none => true
    | some b => b = "" || !(regexTestHeader b s)

/-- The `context-by-type` rule.  In the source `when` defaults to
`"always"` and `value` to `DEFAULT_VALUE`; the defaults are supplied by
callers here.  The guards translate the JavaScript truthiness tests:
`parsed.merge` (truthy iff `some true`), `parsed.revert != null`
(iff `some _`), and `!type` (iff `none` or the empty string). -/
def contextByType (parsed : Commit) (wh : When) (value : RuleValue) : Bool × String :=
  if parsed.merge = some true ∨ parsed.revert ≠ none then (true, "")
  else
    match parsed.type with
    | none => (true, "")
    | some t =>
      if t = "" then (true, "")
      else
        match lookupType value t with
        | none => (true, "")
        | some spec =>
          let required := ((normalize spec).required).getD []
          let missing := findMissing parsed.body required
          let hasContext : Bool := missing.isEmpty
          let result : Bool := if wh = When.never then !hasContext else hasContext
          let message : String :=
            if wh = When.never ∧ hasContext = true then
              t ++ " commits should NOT include: " ++ String.intercalate ", " required
            else if wh = When.always ∧ hasContext = false then
              t ++ " commits should include: " ++ String.intercalate ", " missing
            else ""
          (result, message)

/-- The `context-recommended` rule: same shape as `contextByType`, over
the `recommended` list, with an additional short-circuit when that list
is empty and advisory message wording. -/
def contextRecommended (parsed : Commit) (wh : When) (value : RuleValue) : Bool × String :=
  if parsed.merge = some true ∨ parsed.revert ≠ none then (true, "")
  else
    match parsed.type with
    | none => (true, "")
    | some t =>
      if t = "" then (true, "")
      else
        match lookupType value t with
        | none => (true, "")
        | some spec =>
          let recommended := ((normalize spec).recommended).getD []
          if recommended.isEmpty then (true, "")
          else
            let missing := findMissing parsed.body recommended
            let hasContext : Bool := missing.isEmpty
            let result : Bool := if wh = When.never then !hasContext else hasContext
            let message : String :=
              if wh = When.never ∧ hasContext = true then
                t ++ " commits: consider NOT including: " ++ String.intercalate ", " recommended
              else if wh = When.always ∧ hasContext = false then
                t ++ " commits: consider adding: " ++ String.intercalate ", " missing
              else ""
            (result, message)

/-- Split a character list into lines at the JavaScript line-terminator
characters (separators are dropped; an empty text is one empty line). -/
def splitJSLines : List Char → List (List Char)
  | [] => [[]]
  | c :: rest =>
    if jsLineTerminator c then [] :: splitJSLines rest
    else
      match splitJSLines rest with
      | [] => [[c]]
      | l :: ls => (c :: l) :: ls

/-- Matcher written from the specification text: a section counts as
present iff the body is non-null and some line of the body, after
stripping leading whitespace, starts with exactly three hash
characters, one or more whitespace characters, then the section name,
case-insensitively and not anchored to end-of-line (the per-line
reading of the pattern with a leading whitespace allowance). -/
def claimPresent (body : Option String) (name : String) : Bool :=
  match body with
  | none => false
  | some b =>
    (splitJSLines b.data).any fun line => headerAt name.data (line.dropWhile jsWhitespace)

/-- All suffixes of the text that begin right after a line-terminator
character; together with the text itself these are exactly the
positions where the multiline `^` matches. -/
def lineStartSuffixes : List Char → List (List Char)
  | [] => []
  | c :: rest =>
    if jsLineTerminator c then rest :: lineStartSuffixes rest
    else lineStartSuffixes rest

/-- Declarative reading of what the implemented matcher accepts: some
line-start suffix of the body (the whole body, or a suffix starting
right after a line terminator) begins with exactly three hash
characters, then one or more whitespace characters (possibly including
line terminators), then the section name case-insensitively.  A null
body has no match. -/
def presentAmended (body : Option String) (name : String) : Bool :=
  match body with
  | none => false
  | some b =>
    (b.data :: lineStartSuffixes b.data).any fun suf => headerAt name.data suf

/-- A section name all of whose characters denote themselves literally
inside a JavaScript regular-expression pattern: letters, digits,
spaces, hyphens and underscores.  Splicing such a name into the
pattern always yields a syntactically valid regular expression that
matches the name verbatim. -/
def nameSafe (s : String) : Bool :=
  s.data.all fun c => c.isAlphanum || c = ' ' || c = '-' || c = '_'

/-- Section matcher with the fallibility of the JavaScript `RegExp`
constructor made explicit: when the body is truthy the source builds
`new RegExp(("^###\s+").append name, "mi")` for each section name, and
that constructor throws a `SyntaxError` when the spliced name makes
the pattern syntactically invalid (for example an unterminated group
such as a lone open parenthesis).  The model is conservative: names
built only from literal characters (see `nameSafe`) construct
successfully and match literally; any other name is modelled as a
construction failure.  This matches JavaScript exactly on `nameSafe`
names and on the concrete unterminated-group name used below; some
other metacharacter names would construct successfully in JavaScript,
so results proved about non-`nameSafe` names beyond that concrete one
are not claimed. -/
def findMissingE (body : Option String) : List String → Except String (List String)
  | [] => .ok []
  | s :: rest =>
    match body with
    | none =>
      match findMissingE body rest with
      | .error e => .error e
      | .ok ms => .ok (s :: ms)
    | some b =>
      if b = "" then
        match findMissingE body rest with
        | .error e => .error e
        | .ok ms => .ok (s :: ms)
      else if nameSafe s then
        match findMissingE body rest with
        | .error e => .error e
        | .ok ms => .ok (if regexTestHeader b s then ms else s :: ms)
      else .error "SyntaxError: Invalid regular expression"

/-- The `context-by-type` rule with `RegExp`-construction failure made
explicit; on the error-free path it computes exactly `contextByType`. -/
def contextByTypeE (parsed : Commit) (wh : When) (value : RuleValue) :
    Except String (Bool × String) :=
  if parsed.merge = some true ∨ parsed.revert ≠ none then .ok (true, "")
  else
    match parsed.type with
    | none => .ok (true, "")
    | some t =>
      if t = "" then .ok (true, "")
      else
        match lookupType value t with
        | none => .ok (true, "")
        | some spec =>
          let required := ((normalize spec).required).getD []
          match findMissingE parsed.body required with
          | .error e => .error e
          | .ok missing =>
            let hasContext : Bool := missing.isEmpty
            let result : Bool := if wh = When.never then !hasContext else hasContext
            let message : String :=
              if wh = When.never ∧ hasContext = true then
                t ++ " commits should NOT include: " ++ String.intercalate ", " required
              else if wh = When.always ∧ hasContext = false then
                t ++ " commits should include: " ++ String.intercalate ", " missing
              else ""
            .ok (result, message)

/-- The `context-recommended` rule with `RegExp`-construction failure
made explicit; on the error-free path it computes exactly
`contextRecommended`. -/
def contextRecommendedE (parsed : Commit) (wh : When) (value : RuleValue) :
    Except String (Bool × String) :=
  if parsed.merge = some true ∨ parsed.revert ≠ none then .ok (true, "")
  else
    match parsed.type with
    | none => .ok (true, "")
    | some t =>
      if t = "" then .ok (true, "")
      else
        match lookupType value t with
        | none => .ok (true, "")
        | some spec =>
          let recommended := ((normalize spec).recommended).getD []
          if recommended.isEmpty then .ok (true, "")
          else
            match findMissingE parsed.body recommended with
            | .error e => .error e
            | .ok missing =>
              let hasContext : Bool := missing.isEmpty
              let result : Bool := if wh = When.never then !hasContext else hasContext
              let message : String :=
                if wh = When.never ∧ hasContext = true then
                  t ++ " commits: consider NOT including: " ++ String.intercalate ", " recommended
                else if wh = When.always ∧ hasContext = false then
                  t ++ " commits: consider adding: " ++ String.intercalate ", " missing
                else ""
              .ok (result, message)

/-- All section names reachable from a configuration entry are safe in
the sense of `nameSafe`. -/
def specNamesSafe (spec : SectionSpec) : Bool :=
  (((normalize spec).required).getD []).all nameSafe &&
  (((normalize spec).recommended).getD []).all nameSafe

/-- The property names every JavaScript object literal inherits from
`Object.prototype`: the `in` operator finds these even though they are
not own keys of the configuration object. -/
def objectPrototypeKeys : List String :=
  ["constructor", "hasOwnProperty", "isPrototypeOf", "propertyIsEnumerable",
   "toLocaleString", "toString", "valueOf", "__proto__",
   "__defineGetter__", "__defineSetter__", "__lookupGetter__", "__lookupSetter__"]

/-- The `context-by-type` rule with the prototype-chain behavior of the
JavaScript `in` operator made explicit: `type in value` is true for
the own keys of the configuration object and also for the property
names inherited from `Object.prototype`.  For an inherited name that
is not an own key, `value[type]` yields the inherited function (or,
for `__proto__`, the `Object.prototype` object itself);
`Array.isArray` is false on it, so `normalize` returns it unchanged,
and destructuring `required` with a default yields the empty list.
`contextByType` is this function restricted to types that are own keys
or no inherited property name (see `contextByTypeP_agrees`). -/
def contextByTypeP (parsed : Commit) (wh : When) (value : RuleValue) : Bool × String :=
  if parsed.merge = some true ∨ parsed.revert ≠ none then (true, "")
  else
    match parsed.type with
    | none => (true, "")
    | some t =>
      if t = "" then (true, "")
      else
        if (lookupType value t).isSome || objectPrototypeKeys.contains t then
          let required :=
            match lookupType value t with
            | some spec => ((normalize spec).required).getD []
            | none => []
          let missing := findMissing parsed.body required
          let hasContext : Bool := missing.isEmpty
          let result : Bool := if wh = When.never then !hasContext else hasContext
          let message : String :=
            if wh = When.never ∧ hasContext = true then
              t ++ " commits should NOT include: " ++ String.intercalate ", " required
            else if wh = When.always ∧ hasContext = false then
              t ++ " commits should include: " ++ String.intercalate ", " missing
            else ""
          (result, message)
        else (true, "")

/-- The `context-recommended` rule with the prototype-chain behavior of
the JavaScript `in` operator made explicit, in the manner of
`contextByTypeP`; an inherited non-own key has an empty recommended
list and is absorbed by the empty-list short-circuit. -/
def contextRecommendedP (parsed : Commit) (wh : When) (value : RuleValue) : Bool × String :=
  if parsed.merge = some true ∨ parsed.revert ≠ none then (true, "")
  else
    match parsed.type with
    | none => (true, "")
    | some t =>
      if t = "" then (true, "")
      else
        if (lookupType value t).isSome || objectPrototypeKeys.contains t then
          let recommended :=
            match lookupType value t with
            | some spec => ((normalize spec).recommended).getD []
            | none => []
          if recommended.isEmpty then (true, "")
          else
            let missing := findMissing parsed.body recommended
            let hasContext : Bool := missing.isEmpty
            let result : Bool := if wh = When.never then !hasContext else hasContext
            let message : String :=
              if wh = When.never ∧ hasContext = true then
                t ++ " commits: consider NOT including: " ++ String.intercalate ", " recommended
              else if wh = When.always ∧ hasContext = false then
                t ++ " commits: consider adding: " ++ String.intercalate ", " missing
              else ""
            (result, message)
        else (true, "")

example :
    contextByType ⟨some "fix", some "### Why\nreasons", none, none⟩ When.always DEFAULT_VALUE
      = (true, "") := by decide

example :
    contextByType ⟨some "fix", some "just a body", none, none⟩ When.always DEFAULT_VALUE
      = (false, "fix commits should include: Why") := by decide

example :
    contextByType ⟨some "refactor", some "no context here", none, none⟩ When.always DEFAULT_VALUE
      = (false, "refactor commits should include: Why, Approach") := by decide

example :
    contextByType ⟨some "fix", some "### Why\nreasons", none, none⟩ When.never DEFAULT_VALUE
      = (false, "fix commits should NOT include: Why") := by decide

example :
    contextByType ⟨some "fix", some "intro ### Why\nreasons", none, none⟩ When.always DEFAULT_VALUE
      = (false, "fix commits should include: Why") := by decide

example :
    contextByType ⟨some "fix", some "### why\nreasons", none, none⟩ When.always DEFAULT_VALUE
      = (true, "") := by decide

example :
    contextByType ⟨some "fix", some "###  Why\nreasons", none, none⟩ When.always DEFAULT_VALUE
      = (true, "") := by decide

example :
    contextRecommended ⟨some "fix", some "### Why\nr", none, none⟩ When.always DEFAULT_VALUE
      = (false, "fix commits: consider adding: Cause, Approach") := by decide

example :
    contextRecommended ⟨some "fix", some "### Why\nr\n### Cause\nc\n### Approach\na", none, none⟩
      When.always DEFAULT_VALUE = (true, "") := by decide

example : findMissing (some " ### Why") ["Why"] = ["Why"] := by decide

example : findMissing (some "###\nWhy") ["Why"] = [] := by decide

theorem headerAt_nil (name : List Char) : headerAt name [] = false := rfl

theorem scanHeader_eq_suffixes (name : List Char) :
    ∀ (s : List Char) (atStart : Bool),
      scanHeader name atStart s =
        ((atStart && headerAt name s) ||
          (lineStartSuffixes s).any fun suf => headerAt name suf) := by
  intro s
  induction s with
  | nil =>
    intro atStart
    simp [scanHeader, lineStartSuffixes, headerAt_nil]
  | cons c rest ih =>
    intro atStart
    cases hc : jsLineTerminator c with
    | false =>
      simp [scanHeader, lineStartSuffixes, ih, hc]
    | true =>
      simp [scanHeader, lineStartSuffixes, ih, hc, Bool.or_assoc]

theorem regexTestHeader_eq_presentAmended (b name : String) :
    regexTestHeader b name = presentAmended (some b) name := by
  simp [regexTestHeader, presentAmended, scanHeader_eq_suffixes, List.any_cons]

/-- C1 (amended): for expected lists whose section names consist only
of characters that denote themselves inside a regular-expression
pattern (letters, digits, spaces, hyphens, underscores — the scope on
which the literal matcher is faithful to the source, since a
metacharacter name is interpreted as regex syntax there and an invalid
one makes the constructor throw), `findMissing body expected` is
exactly the sublist of `expected` (order preserved) of those names not
present in the body, where a name is present iff at some line-start
position of the body (start of the body, or immediately after a
line-terminator character) the text continues with exactly three hash
characters, then one or more whitespace characters — the matched
whitespace may itself include line terminators — then the name,
case-insensitively and not anchored to end-of-line; a null body has no
present sections, so the whole expected list is returned. -/
theorem findMissing_eq_filter_presentAmended (body : Option String) (sections : List String)
    (hsafe : ∀ s ∈ sections, nameSafe s = true) :
    findMissing body sections = sections.filter fun s => !(presentAmended body s) := by
  unfold findMissing
  apply List.filter_congr
  intro s _
  match body with
  | none => rfl
  | some b =>
    by_cases hb : b = ""
    · subst hb
      simp [presentAmended, lineStartSuffixes, headerAt_nil]
    · simp [hb, regexTestHeader_eq_presentAmended]

/-- C1 fails as stated: the implemented pattern has no leading `\s*`,
so a header line indented by a single space is not matched even though
the claimed matcher (strip leading whitespace, then require the three
hashes) accepts it.  On body `" ### Why"` with expected `["Why"]` the
code reports `Why` missing while the claimed matcher reports nothing
missing. -/
theorem findMissing_claim_counterexample :
    findMissing (some " ### Why") ["Why"] ≠
      List.filter (fun s => !(claimPresent (some " ### Why") s)) ["Why"] := by decide

/-- Witness for the amended C1 at a concrete input: both names of a
safe expected list, one present after an intro line and one absent. -/
theorem findMissing_amended_witness :
    findMissing (some "intro\n### Why\nr") ["Why", "Approach"]
      = List.filter (fun s => !(presentAmended (some "intro\n### Why\nr") s))
          ["Why", "Approach"] :=
  findMissing_eq_filter_presentAmended (some "intro\n### Why\nr") ["Why", "Approach"] (by decide)

theorem findMissingE_eq_ok (body : Option String) (l : List String)
    (h : ∀ s ∈ l, nameSafe s = true) :
    findMissingE body l = Except.ok (findMissing body l) := by
  induction l with
  | nil => cases body <;> simp [findMissingE, findMissing]
  | cons s rest ih =>
    have hs : nameSafe s = true := h s (by simp)
    have hrest : ∀ x ∈ rest, nameSafe x = true := fun x hx => h x (by simp [hx])
    match body with
    | none =>
      simp [findMissingE, findMissing, List.filter_cons] at ih ⊢
      simp [ih hrest]
    | some b =>
      by_cases hb : b = ""
      · subst hb
        simp [findMissingE, findMissing, List.filter_cons] at ih ⊢
        simp [ih hrest]
      · simp [findMissingE, findMissing, List.filter_cons, hb, hs] at ih ⊢
        rw [ih hrest]
        cases hre : regexTestHeader b s <;> simp [hre]

theorem lookupType_mem (value : RuleValue) (t : String) (spec : SectionSpec)
    (hl : lookupType value t = some spec) : ∃ p ∈ value, p.2 = spec := by
  unfold lookupType at hl
  cases hf : List.find? (fun p => p.1 == t) value with
  | none => rw [hf] at hl; cases hl
  | some p =>
    rw [hf] at hl
    exact ⟨p, List.mem_of_find?_eq_some hf, by cases hl; rfl⟩

theorem contextByTypeE_eq_ok (parsed : Commit) (wh : When) (value : RuleValue)
    (hsafe : ∀ p ∈ value, specNamesSafe p.2 = true) :
    contextByTypeE parsed wh value = Except.ok (contextByType parsed wh value) := by
  unfold contextByTypeE contextByType
  by_cases hg : parsed.merge = some true ∨ parsed.revert ≠ none
  · simp [hg]
  · simp only [if_neg hg]
    cases hty : parsed.type with
    | none => rfl
    | some t =>
      by_cases ht : t = ""
      · simp [ht]
      · simp only [if_neg ht]
        cases hl : lookupType value t with
        | none => rfl
        | some spec =>
          obtain ⟨p, hp, hspec⟩ := lookupType_mem value t spec hl
          have hsafe2 : specNamesSafe spec = true := hspec ▸ hsafe p hp
          have hr : ∀ s ∈ ((normalize spec).required).getD [], nameSafe s = true := by
            have := (Bool.and_eq_true _ _).mp hsafe2
            exact fun s hsm => List.all_eq_true.mp this.1 s hsm
          simp only [findMissingE_eq_ok parsed.body _ hr]

theorem contextRecommendedE_eq_ok (parsed : Commit) (wh : When) (value : RuleValue)
    (hsafe : ∀ p ∈ value, specNamesSafe p.2 = true) :
    contextRecommendedE parsed wh value = Except.ok (contextRecommended parsed wh value) := by
  unfold contextRecommendedE contextRecommended
  by_cases hg : parsed.merge = some true ∨ parsed.revert ≠ none
  · simp [hg]
  · simp only [if_neg hg]
    cases hty : parsed.type with
    | none => rfl
    | some t =>
      by_cases ht : t = ""
      · simp [ht]
      · simp only [if_neg ht]
        cases hl : lookupType value t with
        | none => rfl
        | some spec =>
          obtain ⟨p, hp, hspec⟩ := lookupType_mem value t spec hl
          have hsafe2 : specNamesSafe spec = true := hspec ▸ hsafe p hp
          have hr : ∀ s ∈ ((normalize spec).recommended).getD [], nameSafe s = true := by
            have := (Bool.and_eq_true _ _).mp hsafe2
            exact fun s hsm => List.all_eq_true.mp this.2 s hsm
          by_cases hrec : (((normalize spec).recommended).getD []).isEmpty
          · simp [hrec]
          · simp [hrec, findMissingE_eq_ok parsed.body _ hr]

/-- C2 fails as stated: the claim ranges over arbitrary section-name
strings, but the source splices each name into the text of a regular
expression; a name consisting of a lone open parenthesis makes the
pattern `^###\s+(` syntactically invalid, so the `RegExp` constructor
throws a `SyntaxError` and, on a non-exempt commit of that configured
type with a truthy body, `contextByType` propagates the exception
instead of returning a tuple. -/
theorem contextByTypeE_throws_counterexample :
    contextByTypeE ⟨some "fix", some "body text", none, none⟩ When.always
        [("fix", SectionSpec.flat ["("])]
      = Except.error "SyntaxError: Invalid regular expression" := rfl

/-- C2 (amended): for every well-typed input whose configuration uses
only section names built from characters that denote themselves inside
a regular-expression pattern (letters, digits, spaces, hyphens,
underscores — which covers every name the plugin and its shipped
configurations use), `contextByType` and `contextRecommended` are
total: the exception-aware models return `Except.ok` of exactly the
(boolean, string) tuples computed by the pure functions, and never
throw. -/
theorem context_rules_total_for_safe_names (parsed : Commit) (wh : When) (value : RuleValue)
    (hsafe : ∀ p ∈ value, specNamesSafe p.2 = true) :
    contextByTypeE parsed wh value = Except.ok (contextByType parsed wh value) ∧
    contextRecommendedE parsed wh value = Except.ok (contextRecommended parsed wh value) :=
  ⟨contextByTypeE_eq_ok parsed wh value hsafe, contextRecommendedE_eq_ok parsed wh value hsafe⟩

/-- Witness for the amended C2 at a concrete input: the default
configuration is safe, and both rules on a concrete commit return
`Except.ok` of their pure results. -/
theorem context_rules_total_witness :
    contextByTypeE ⟨some "fix", some "just a body", none, none⟩ When.always DEFAULT_VALUE
      = Except.ok (contextByType ⟨some "fix", some "just a body", none, none⟩
          When.always DEFAULT_VALUE) ∧
    contextRecommendedE ⟨some "fix", some "just a body", none, none⟩ When.always DEFAULT_VALUE
      = Except.ok (contextRecommended ⟨some "fix", some "just a body", none, none⟩
          When.always DEFAULT_VALUE) :=
  context_rules_total_for_safe_names ⟨some "fix", some "just a body", none, none⟩
    When.always DEFAULT_VALUE (by decide)

theorem append_mid_ne_empty (a b c : String) (hb : b.length ≠ 0) : a ++ b ++ c ≠ "" := by
  intro h
  have hlen := congrArg String.length h
  simp only [String.length_append] at hlen
  rw [show ("" : String).length = 0 from rfl] at hlen
  omega

/-- C3: a commit with `merge` true or `revert` present is exempt: both
rules return `(true, "")` regardless of type, body, polarity and
configuration. -/
theorem exemption_totality (parsed : Commit) (wh : When) (value : RuleValue)
    (h : parsed.merge = some true ∨ parsed.revert ≠ none) :
    contextByType parsed wh value = (true, "") ∧
    contextRecommended parsed wh value = (true, "") := by
  unfold contextByType contextRecommended
  rw [if_pos h, if_pos h]
  exact ⟨rfl, rfl⟩

/-- Witness for C3: a merge commit and a revert commit of a configured
type with a body that would otherwise fail both pass with no message. -/
theorem exemption_totality_witness :
    (contextByType ⟨some "fix", some "no sections", some true, none⟩ When.always DEFAULT_VALUE
        = (true, "") ∧
      contextRecommended ⟨some "fix", some "no sections", some true, none⟩ When.always DEFAULT_VALUE
        = (true, "")) ∧
    (contextByType ⟨some "fix", some "no sections", none, some ()⟩ When.never DEFAULT_VALUE
        = (true, "") ∧
      contextRecommended ⟨some "fix", some "no sections", none, some ()⟩ When.never DEFAULT_VALUE
        = (true, "")) :=
  ⟨exemption_totality ⟨some "fix", some "no sections", some true, none⟩ When.always DEFAULT_VALUE
      (Or.inl rfl),
   exemption_totality ⟨some "fix", some "no sections", none, some ()⟩ When.never DEFAULT_VALUE
      (Or.inr (by simp))⟩

/-- For commits whose type is an own key of the configuration or no
`Object.prototype` property name, the prototype-aware rule agrees with
`contextByType`: the two differ only at inherited non-own keys. -/
theorem contextByTypeP_agrees (parsed : Commit) (wh : When) (value : RuleValue)
    (h : ∀ t, parsed.type = some t →
      (lookupType value t).isSome ∨ objectPrototypeKeys.contains t = false) :
    contextByTypeP parsed wh value = contextByType parsed wh value := by
  unfold contextByTypeP contextByType
  by_cases hg : parsed.merge = some true ∨ parsed.revert ≠ none
  · rw [if_pos hg, if_pos hg]
  · rw [if_neg hg, if_neg hg]
    cases hty : parsed.type with
    | none => rfl
    | some t =>
      by_cases ht : t = ""
      · simp [ht]
      · cases hl : lookupType value t with
        | some spec => simp [ht, hl]
        | none =>
          have hp := (h t hty).resolve_left (by simp [hl])
          have hp2 : t ∉ objectPrototypeKeys := by simpa using hp
          simp [ht, hl, hp2]

/-- Recommended-rule analogue of `contextByTypeP_agrees`. -/
theorem contextRecommendedP_agrees (parsed : Commit) (wh : When) (value : RuleValue)
    (h : ∀ t, parsed.type = some t →
      (lookupType value t).isSome ∨ objectPrototypeKeys.contains t = false) :
    contextRecommendedP parsed wh value = contextRecommended parsed wh value := by
  unfold contextRecommendedP contextRecommended
  by_cases hg : parsed.merge = some true ∨ parsed.revert ≠ none
  · rw [if_pos hg, if_pos hg]
  · rw [if_neg hg, if_neg hg]
    cases hty : parsed.type with
    | none => rfl
    | some t =>
      by_cases ht : t = ""
      · simp [ht]
      · cases hl : lookupType value t with
        | some spec => simp [ht, hl]
        | none =>
          have hp := (h t hty).resolve_left (by simp [hl])
          have hp2 : t ∉ objectPrototypeKeys := by simpa using hp
          simp [ht, hl, hp2]

/-- C5 fails as stated: the JavaScript `in` operator walks the
prototype chain, so a commit of type `toString` — not a key of the
default configuration — passes the `!(type in value)` guard; the
inherited value destructures to an empty required list, and under the
`never` polarity the rule returns valid=false with the message
`toString commits should NOT include: ` instead of the claimed
`(true, "")`. -/
theorem type_not_configured_counterexample :
    lookupType DEFAULT_VALUE "toString" = none ∧
    contextByTypeP ⟨some "toString", some "b", none, none⟩ When.never DEFAULT_VALUE
      = (false, "toString commits should NOT include: ") := by
  exact ⟨rfl, rfl⟩

/-- C5 (amended): a commit whose type is null, or whose type is
neither a key of the configuration nor one of the property names
inherited from `Object.prototype`, passes both rules with no message,
for every body, polarity and configuration. -/
theorem type_not_configured_totalityP (parsed : Commit) (wh : When) (value : RuleValue)
    (h : parsed.type = none ∨
      ∀ t, parsed.type = some t →
        lookupType value t = none ∧ objectPrototypeKeys.contains t = false) :
    contextByTypeP parsed wh value = (true, "") ∧
    contextRecommendedP parsed wh value = (true, "") := by
  unfold contextByTypeP contextRecommendedP
  by_cases hg : parsed.merge = some true ∨ parsed.revert ≠ none
  · rw [if_pos hg, if_pos hg]; exact ⟨rfl, rfl⟩
  · rw [if_neg hg, if_neg hg]
    cases hty : parsed.type with
    | none => exact ⟨rfl, rfl⟩
    | some t =>
      obtain ⟨hlt, hpt⟩ : lookupType value t = none ∧ objectPrototypeKeys.contains t = false := by
        cases h with
        | inl h0 => rw [hty] at h0; cases h0
        | inr h0 => exact h0 t hty
      have hpt2 : t ∉ objectPrototypeKeys := by simpa using hpt
      by_cases ht : t = ""
      · simp [ht]
      · simp [ht, hlt, hpt2]

/-- Witness for the amended C5: type `docs` is neither configured by
the default value nor inherited from `Object.prototype`, so both rules
pass with no message. -/
theorem type_not_configured_witness :
    contextByTypeP ⟨some "docs", some "whatever", none, none⟩ When.always DEFAULT_VALUE
        = (true, "") ∧
    contextRecommendedP ⟨some "docs", some "whatever", none, none⟩ When.always DEFAULT_VALUE
        = (true, "") :=
  type_not_configured_totalityP ⟨some "docs", some "whatever", none, none⟩ When.always DEFAULT_VALUE
    (Or.inr fun t ht => by
      injection ht with h
      subst h
      exact ⟨rfl, rfl⟩)

/-- C6: the configuration normalizer maps a bare list `L` to the
structured form with `required = L` and `recommended` absent, maps an
already-structured entry to itself unchanged, and is therefore
idempotent. -/
theorem normalize_spec :
    (∀ L : List String, normalize (SectionSpec.flat L) = ⟨some L, none⟩) ∧
    (∀ cfg : SectionConfig, normalize (SectionSpec.structured cfg) = cfg) ∧
    (∀ v : SectionSpec, normalize (SectionSpec.structured (normalize v)) = normalize v) :=
  ⟨fun _ => rfl, fun _ => rfl, fun _ => rfl⟩

theorem contextByType_configured (parsed : Commit) (wh : When) (value : RuleValue)
    (t : String) (spec : SectionSpec)
    (hm : ¬ (parsed.merge = some true ∨ parsed.revert ≠ none))
    (hty : parsed.type = some t) (ht : t ≠ "")
    (hl : lookupType value t = some spec) :
    contextByType parsed wh value =
      ((if wh = When.never
          then !(findMissing parsed.body (((normalize spec).required).getD [])).isEmpty
          else (findMissing parsed.body (((normalize spec).required).getD [])).isEmpty),
       (if wh = When.never ∧
            (findMissing parsed.body (((normalize spec).required).getD [])).isEmpty = true then
          t ++ " commits should NOT include: " ++
            String.intercalate ", " (((normalize spec).required).getD [])
        else if wh = When.always ∧
            (findMissing parsed.body (((normalize spec).required).getD [])).isEmpty = false then
          t ++ " commits should include: " ++
            String.intercalate ", " (findMissing parsed.body (((normalize spec).required).getD []))
        else "")) := by
  unfold contextByType
  rw [if_neg hm, hty]
  simp only [hl, if_neg ht]

theorem contextRecommended_configured (parsed : Commit) (wh : When) (value : RuleValue)
    (t : String) (spec : SectionSpec)
    (hm : ¬ (parsed.merge = some true ∨ parsed.revert ≠ none))
    (hty : parsed.type = some t) (ht : t ≠ "")
    (hl : lookupType value t = some spec) :
    contextRecommended parsed wh value =
      (if (((normalize spec).recommended).getD []).isEmpty then (true, "")
       else
        ((if wh = When.never
            then !(findMissing parsed.body (((normalize spec).recommended).getD [])).isEmpty
            else (findMissing parsed.body (((normalize spec).recommended).getD [])).isEmpty),
         (if wh = When.never ∧
              (findMissing parsed.body (((normalize spec).recommended).getD [])).isEmpty = true then
            t ++ " commits: consider NOT including: " ++
              String.intercalate ", " (((normalize spec).recommended).getD [])
          else if wh = When.always ∧
              (findMissing parsed.body (((normalize spec).recommended).getD [])).isEmpty = false then
            t ++ " commits: consider adding: " ++
              String.intercalate ", " (findMissing parsed.body (((normalize spec).recommended).getD []))
          else ""))) := by
  unfold contextRecommended
  rw [if_neg hm, hty]
  simp only [hl, if_neg ht]

/-- C7: for a commit whose type is configured but whose normalized
recommended list is empty or absent — in particular for a type
configured with the legacy flat-list shape — `contextRecommended`
returns `(true, "")` for every body and under both polarities. -/
theorem contextRecommended_empty_shortcircuit (parsed : Commit) (wh : When) (value : RuleValue)
    (t : String) (spec : SectionSpec)
    (hty : parsed.type = some t) (hl : lookupType value t = some spec)
    (hrec : ((normalize spec).recommended).getD [] = []) :
    contextRecommended parsed wh value = (true, "") := by
  unfold contextRecommended
  by_cases hg : parsed.merge = some true ∨ parsed.revert ≠ none
  · rw [if_pos hg]
  · rw [if_neg hg, hty]
    by_cases ht : t = ""
    · simp [ht]
    · simp [ht, hl, hrec]

/-- Witness for C7: a flat-list configuration has no recommended
sections, so the recommended rule passes under the `never` polarity
even though the one listed section is present in the body. -/
theorem contextRecommended_empty_witness :
    contextRecommended ⟨some "fix", some "### Why\nr", none, none⟩ When.never
        [("fix", SectionSpec.flat ["Why"])] = (true, "") :=
  contextRecommended_empty_shortcircuit ⟨some "fix", some "### Why\nr", none, none⟩ When.never
    [("fix", SectionSpec.flat ["Why"])] "fix" (SectionSpec.flat ["Why"]) rfl (by decide) rfl

theorem findMissing_empty_body (l : List String) : findMissing (some "") l = l := by
  unfold findMissing
  induction l with
  | nil => rfl
  | cons s rest ih => simp [List.filter_cons, ih]

/-- C10: an empty-string body is treated exactly like a null body: the
JavaScript guard `!body` is true for the empty string, so every
expected name is reported missing, and a non-exempt commit of a
configured type with body `""` fails `contextByType` under the
`always` polarity whenever the required list is non-empty. -/
theorem empty_body_like_null (expected : List String) (parsed : Commit) (value : RuleValue)
    (t : String) (spec : SectionSpec)
    (hm : ¬ (parsed.merge = some true ∨ parsed.revert ≠ none))
    (hty : parsed.type = some t) (ht : t ≠ "")
    (hl : lookupType value t = some spec)
    (hb : parsed.body = some "")
    (hreq : ((normalize spec).required).getD [] ≠ []) :
    findMissing (some "") expected = expected ∧
    (contextByType parsed When.always value).1 = false := by
  refine ⟨findMissing_empty_body expected, ?_⟩
  rw [contextByType_configured parsed When.always value t spec hm hty ht hl]
  rw [hb, findMissing_empty_body]
  simp [List.isEmpty_iff, hreq]

/-- Witness for C10: with the default configuration, a `fix` commit
with body `""` fails the required rule, and `findMissing` on body `""`
returns the whole expected list. -/
theorem empty_body_like_null_witness :
    findMissing (some "") ["Alpha", "Beta"] = ["Alpha", "Beta"] ∧
    (contextByType ⟨some "fix", some "", none, none⟩ When.always DEFAULT_VALUE).1 = false :=
  empty_body_like_null ["Alpha", "Beta"] ⟨some "fix", some "", none, none⟩ DEFAULT_VALUE
    "fix" (SectionSpec.structured ⟨some ["Why"], some ["Cause", "Approach"]⟩)
    (by simp) rfl (by decide) rfl rfl (by decide)

theorem when_always_ne_never : When.always ≠ When.never := by intro h; cases h

theorem when_never_ne_always : When.never ≠ When.always := by intro h; cases h

/-- C8 fails as stated: the claim ranges over every configured type,
but with a required section name that is an unterminated group the
program throws while constructing the regular expression on a
non-exempt commit of that type with a truthy body, producing no
message at all — in particular not the claimed `should include`
listing (and for a metacharacter name such as `.` the spliced pattern
matches text the name does not spell, likewise breaking the listing). -/
theorem contextByType_message_counterexample :
    contextByTypeE ⟨some "feat", some "x", none, none⟩ When.always
        [("feat", SectionSpec.flat ["("])]
      = Except.error "SyntaxError: Invalid regular expression" := rfl

/-- C8 (amended): for a non-exempt commit with a configured type whose
required list normalizes to `R`, with every name in `R` built only
from regular-expression-literal characters (the scope on which the
literal matcher is faithful to the source): under `always` with at
least one required section missing, the message lists exactly the
missing names (a sublist of `R`, hence in original configuration
order) after `<type> commits should include: `; under `never` with all
required sections present, the message lists the full required list
after `<type> commits should NOT include: `; in the two remaining
cases the message is empty. -/
theorem contextByType_message_spec (parsed : Commit) (wh : When) (value : RuleValue)
    (t : String) (spec : SectionSpec) (R : List String)
    (hm : ¬ (parsed.merge = some true ∨ parsed.revert ≠ none))
    (hty : parsed.type = some t) (ht : t ≠ "")
    (hl : lookupType value t = some spec)
    (hreq : ((normalize spec).required).getD [] = R)
    (hsafe : R.all nameSafe = true) :
    (findMissing parsed.body R).Sublist R ∧
    (wh = When.always → findMissing parsed.body R ≠ [] →
      (contextByType parsed wh value).2 =
        t ++ " commits should include: " ++ String.intercalate ", " (findMissing parsed.body R)) ∧
    (wh = When.never → findMissing parsed.body R = [] →
      (contextByType parsed wh value).2 =
        t ++ " commits should NOT include: " ++ String.intercalate ", " R) ∧
    (wh = When.always → findMissing parsed.body R = [] → (contextByType parsed wh value).2 = "") ∧
    (wh = When.never → findMissing parsed.body R ≠ [] → (contextByType parsed wh value).2 = "") := by
  rw [contextByType_configured parsed wh value t spec hm hty ht hl, hreq]
  refine ⟨List.filter_sublist R, ?_, ?_, ?_, ?_⟩
  · rintro rfl hne
    rcases hfm : findMissing parsed.body R with _ | ⟨x, xs⟩
    · exact absurd hfm hne
    · simp [when_always_ne_never]
  · rintro rfl hemp
    rw [hemp]; simp [when_never_ne_always]
  · rintro rfl hemp
    rw [hemp]; simp [when_always_ne_never]
  · rintro rfl hne
    rcases hfm : findMissing parsed.body R with _ | ⟨x, xs⟩
    · exact absurd hfm hne
    · simp [when_never_ne_always]

/-- Witness for C8: a `refactor` commit containing only the `Why`
header is told to include exactly the missing `Approach` section. -/
theorem contextByType_message_witness :
    (contextByType ⟨some "refactor", some "### Why\nr", none, none⟩ When.always DEFAULT_VALUE).2
      = "refactor commits should include: Approach" := by
  have h := contextByType_message_spec ⟨some "refactor", some "### Why\nr", none, none⟩
    When.always DEFAULT_VALUE "refactor"
    (SectionSpec.structured ⟨some ["Why", "Approach"], some ["Alternatives", "Invariants"]⟩)
    ["Why", "Approach"] (by simp) rfl (by decide) rfl rfl (by decide)
  have h2 := h.2.1 rfl (by decide)
  have h3 : findMissing (some "### Why\nr") ["Why", "Approach"] = ["Approach"] := by decide
  rw [h3] at h2
  rw [h2]
  decide

/-- C9: for every input, each rule returns valid=true exactly when it
returns the empty message: the boolean is false precisely when the
message is non-empty. -/
theorem valid_iff_message_empty (parsed : Commit) (wh : When) (value : RuleValue) :
    ((contextByType parsed wh value).1 = true ↔ (contextByType parsed wh value).2 = "") ∧
    ((contextRecommended parsed wh value).1 = true ↔ (contextRecommended parsed wh value).2 = "") := by
  constructor
  · by_cases hg : parsed.merge = some true ∨ parsed.revert ≠ none
    · unfold contextByType; rw [if_pos hg]; simp
    · cases hty : parsed.type with
      | none => unfold contextByType; rw [if_neg hg, hty]; simp
      | some t =>
        by_cases ht : t = ""
        · unfold contextByType; rw [if_neg hg, hty]; simp [ht]
        · cases hl : lookupType value t with
          | none => unfold contextByType; rw [if_neg hg, hty]; simp [ht, hl]
          | some spec =>
            rw [contextByType_configured parsed wh value t spec hg hty ht hl]
            cases wh with
            | always =>
              cases hmi : (findMissing parsed.body (((normalize spec).required).getD [])).isEmpty with
              | true => simp [hmi, when_always_ne_never]
              | false =>
                have hne := append_mid_ne_empty t " commits should include: "
                  (String.intercalate ", "
                    (findMissing parsed.body (((normalize spec).required).getD []))) (by decide)
                simp [hmi, when_always_ne_never, hne]
            | never =>
              cases hmi : (findMissing parsed.body (((normalize spec).required).getD [])).isEmpty with
              | true =>
                have hne := append_mid_ne_empty t " commits should NOT include: "
                  (String.intercalate ", " (((normalize spec).required).getD [])) (by decide)
                simp [hmi, when_never_ne_always, hne]
              | false => simp [hmi, when_never_ne_always]
  · by_cases hg : parsed.merge = some true ∨ parsed.revert ≠ none
    · unfold contextRecommended; rw [if_pos hg]; simp
    · cases hty : parsed.type with
      | none => unfold contextRecommended; rw [if_neg hg, hty]; simp
      | some t =>
        by_cases ht : t = ""
        · unfold contextRecommended; rw [if_neg hg, hty]; simp [ht]
        · cases hl : lookupType value t with
          | none => unfold contextRecommended; rw [if_neg hg, hty]; simp [ht, hl]
          | some spec =>
            rw [contextRecommended_configured parsed wh value t spec hg hty ht hl]
            by_cases hre : (((normalize spec).recommended).getD []).isEmpty
            · simp [hre]
            · rw [if_neg hre]
              cases wh with
              | always =>
                cases hmi : (findMissing parsed.body (((normalize spec).recommended).getD [])).isEmpty with
                | true => simp [hmi, when_always_ne_never]
                | false =>
                  have hne := append_mid_ne_empty t " commits: consider adding: "
                    (String.intercalate ", "
                      (findMissing parsed.body (((normalize spec).recommended).getD []))) (by decide)
                  simp [hmi, when_always_ne_never, hne]
              | never =>
                cases hmi : (findMissing parsed.body (((normalize spec).recommended).getD [])).isEmpty with
                | true =>
                  have hne := append_mid_ne_empty t " commits: consider NOT including: "
                    (String.intercalate ", " (((normalize spec).recommended).getD [])) (by decide)
                  simp [hmi, when_never_ne_always, hne]
                | false => simp [hmi, when_never_ne_always]

/-- C4 fails as stated: for an exempt or unconfigured commit both
polarities return valid=true, so exactly-one fails; concretely a
commit with null type passes under both polarities. -/
theorem polarity_duality_counterexample :
    ¬ (((contextByType ⟨none, some "b", none, none⟩ When.always DEFAULT_VALUE).1 = true ∧
          ¬ (contextByType ⟨none, some "b", none, none⟩ When.never DEFAULT_VALUE).1 = true) ∨
       (¬ (contextByType ⟨none, some "b", none, none⟩ When.always DEFAULT_VALUE).1 = true ∧
          (contextByType ⟨none, some "b", none, none⟩ When.never DEFAULT_VALUE).1 = true)) := by
  decide

/-- C4 (amended): for a fixed non-exempt commit whose type is non-null,
non-empty and a key of the configuration, and whose configured section
names consist only of regular-expression-literal characters (so that
no polarity call throws in the `RegExp` constructor), exactly one of
the `always` and `never` calls returns valid=true; and for every
commit and configuration the two calls' messages are never both
non-empty. -/
theorem polarity_duality (parsed : Commit) (value : RuleValue) :
    ((parsed.merge ≠ some true ∧ parsed.revert = none ∧
        ∃ t spec, parsed.type = some t ∧ t ≠ "" ∧ lookupType value t = some spec ∧
          specNamesSafe spec = true) →
      (contextByType parsed When.always value).1
        = !(contextByType parsed When.never value).1) ∧
    ((contextByType parsed When.always value).2 = "" ∨
      (contextByType parsed When.never value).2 = "") := by
  constructor
  · rintro ⟨hm1, hm2, t, spec, hty, ht, hl, -⟩
    have hm : ¬ (parsed.merge = some true ∨ parsed.revert ≠ none) := by
      rw [hm2]; simp [hm1]
    rw [contextByType_configured parsed When.always value t spec hm hty ht hl,
        contextByType_configured parsed When.never value t spec hm hty ht hl]
    simp [when_always_ne_never]
  · by_cases hg : parsed.merge = some true ∨ parsed.revert ≠ none
    · left; unfold contextByType; rw [if_pos hg]
    · cases hty : parsed.type with
      | none => left; unfold contextByType; rw [if_neg hg, hty]
      | some t =>
        by_cases ht : t = ""
        · left; unfold contextByType; rw [if_neg hg, hty]; simp [ht]
        · cases hl : lookupType value t with
          | none => left; unfold contextByType; rw [if_neg hg, hty]; simp [ht, hl]
          | some spec =>
            cases hmi : (findMissing parsed.body (((normalize spec).required).getD [])).isEmpty with
            | true =>
              left
              rw [contextByType_configured parsed When.always value t spec hg hty ht hl]
              simp [hmi, when_always_ne_never]
            | false =>
              right
              rw [contextByType_configured parsed When.never value t spec hg hty ht hl]
              simp [hmi, when_never_ne_always]

/-- Witness for C4 (amended) at a concrete configured commit: under
`always` it passes, under `never` it fails, and the messages are not
both non-empty. -/
theorem polarity_duality_witness :
    (contextByType ⟨some "fix", some "### Why\nr", none, none⟩ When.always DEFAULT_VALUE).1
      = !(contextByType ⟨some "fix", some "### Why\nr", none, none⟩ When.never DEFAULT_VALUE).1 ∧
    ((contextByType ⟨some "fix", some "### Why\nr", none, none⟩ When.always DEFAULT_VALUE).2 = "" ∨
      (contextByType ⟨some "fix", some "### Why\nr", none, none⟩ When.never DEFAULT_VALUE).2 = "") := by
  have h := polarity_duality ⟨some "fix", some "### Why\nr", none, none⟩ DEFAULT_VALUE
  exact ⟨h.1 ⟨by decide, rfl,
    "fix", SectionSpec.structured ⟨some ["Why"], some ["Cause", "Approach"]⟩,
    rfl, by decide, rfl, by decide⟩, h.2⟩

end Muselet
